import Mathlib

/-!
Verification development for the movie-recommendation chatbot
(Flask backend + React frontend).  The data model and operations below are
shallow embeddings of the repository's source: the frontend TypeScript is
embedded directly; backend behaviours whose Python source is not part of the
snapshot (only its README, the backend–frontend alignment notes and the SQL
schema are) are modelled from the specification, and each such definition says
so in its doc comment.
-/

namespace MovieRec

/-! ### Rating ingestion and the user–item matrix (C1, C2)

The backend stores at most one effective rating per (userId, movieId) pair
(`UNIQUE(user_id, movie_id)` in the ratings table of the schema).  The
`/api/rate` handler lives in `app.py`, which is not in the snapshot; per the
alignment notes it accepts a 0–5 star value, validates that range, converts to
the internal 10-point scale (star value × 2) and upserts the cell. -/

/-- Sparse user–item matrix: association list from (userId, movieId) to the
effective rating on the internal 0–10 scale.  At most one entry per key. -/
abbrev UserItemMatrix := List ((ℕ × ℕ) × ℚ)

/-- Write the cell (u, m): any prior entry for the pair is removed and the new
value is stored, so the pair has exactly one effective rating afterwards. -/
def matrixSet (M : UserItemMatrix) (u m : ℕ) (r : ℚ) : UserItemMatrix :=
  ((u, m), r) :: M.filter (fun e => decide (e.1 ≠ (u, m)))

/-- Read the effective rating of the cell (u, m), if any. -/
def matrixGet (M : UserItemMatrix) (u m : ℕ) : Option ℚ :=
  (M.find? (fun e => decide (e.1 = (u, m)))).map (fun e => e.2)

/-- Outcome of the rating-ingestion entry point. -/
inductive UpsertResult where
  | ok (M : UserItemMatrix)
  | validationError
  deriving DecidableEq

/-- Modelled from the spec: the `/api/rate` rating-ingestion handler of
`app.py` (absent from the snapshot).  It validates the submitted star value
against the external 0–5 scale, rejects an out-of-range value with
`ValidationError`, converts an in-range value to the internal 0–10 scale by
doubling, and overwrites the (userId, movieId) cell — the only mutation path
for the matrix. -/
def upsert (M : UserItemMatrix) (u m : ℕ) (v : ℚ) : UpsertResult :=
  if 0 ≤ v ∧ v ≤ 5 then .ok (matrixSet M u m (2 * v)) else .validationError

/-- A rating submission: user, movie and the external-scale star value. -/
structure RatingEvent where
  userId : ℕ
  movieId : ℕ
  ratingValue : ℚ

/-- One ingestion step: a rejected submission leaves the matrix untouched. -/
def ingest (M : UserItemMatrix) (e : RatingEvent) : UserItemMatrix :=
  match upsert M e.userId e.movieId e.ratingValue with
  | .ok M' => M'
  | .validationError => M

/-- Ingest a whole sequence of rating submissions starting from the empty
matrix. -/
def ingestAll (es : List RatingEvent) : UserItemMatrix :=
  es.foldl ingest []

/-- Every stored effective rating lies on the internal 0–10 scale. -/
def ratingsWithinScale (M : UserItemMatrix) : Bool :=
  M.all (fun e => decide (0 ≤ e.2 ∧ e.2 ≤ 10))

/-! ### Metadata cache and rate-limited fetcher (C4, C5, C8)

The fetcher lives in `services/tmdb_service.py` and the cache in
`database/db.py`, neither of which is in the snapshot; the README documents
the behaviour (24-hour TTL cache, TMDb ceiling of 40 requests per 10 seconds,
built-in throttling) and the spec gives the full contract. -/

/-- A cached movie record.  `cachedAt` is the write-through timestamp. -/
structure MovieRecord where
  id : ℕ
  title : String
  voteAverage : ℚ
  popularity : ℚ
  cachedAt : ℕ
  deriving DecidableEq

/-- Cache plus the counter of calls issued to the external provider. -/
structure CacheState where
  cache : List (ℕ × MovieRecord)
  providerCalls : ℕ
  deriving DecidableEq

/-- Default TTL: 24 hours, in seconds. -/
def ttlDefault : ℕ := 24 * 60 * 60

/-- Look a movie up in the cache. -/
def cacheLookup (s : CacheState) (movieId : ℕ) : Option MovieRecord :=
  (s.cache.find? (fun e => decide (e.1 = movieId))).map (fun e => e.2)

/-- Store a record under a key, superseding any previous entry. -/
def cachePut (c : List (ℕ × MovieRecord)) (movieId : ℕ) (r : MovieRecord) :
    List (ℕ × MovieRecord) :=
  (movieId, r) :: c.filter (fun e => decide (e.1 ≠ movieId))

/-- What the external metadata provider does when actually called. -/
inductive ProviderResponse where
  | success (r : MovieRecord)
  | failure
  deriving DecidableEq

/-- Result of `fetch`: the served record with its origin, or the error raised
when the provider is down and no cached value exists. -/
inductive FetchResult where
  | fromCache (r : MovieRecord)
  | fromProvider (r : MovieRecord)
  | providerUnavailable
  deriving DecidableEq

/-- Modelled from the spec: `fetch(movieId)` of the metadata cache and
rate-limited fetcher (`services/tmdb_service.py` / `database/db.py`, absent
from the snapshot).  Cache-first: on a hit within the TTL the cached record is
returned and the provider is not called.  On a miss or an expired entry the
provider is called (the call counter increases); on success the record is
written through with a fresh `cachedAt`; on failure the last cached value is
served even if expired (stale-if-error), and only when no cached value exists
does the call fail with `ProviderUnavailableError`. -/
def fetch (s : CacheState) (movieId : ℕ) (now : ℕ) (provider : ProviderResponse) :
    FetchResult × CacheState :=
  match cacheLookup s movieId with
  | some rec =>
      if now - rec.cachedAt < ttlDefault then
        (.fromCache rec, s)
      else
        match provider with
        | .success r =>
            let r' : MovieRecord := { r with cachedAt := now }
            (.fromProvider r', ⟨cachePut s.cache movieId r', s.providerCalls + 1⟩)
        | .failure => (.fromCache rec, { s with providerCalls := s.providerCalls + 1 })
  | none =>
      match provider with
      | .success r =>
          let r' : MovieRecord := { r with cachedAt := now }
          (.fromProvider r', ⟨cachePut s.cache movieId r', s.providerCalls + 1⟩)
      | .failure => (.providerUnavailable, { s with providerCalls := s.providerCalls + 1 })

/-- Outcome of one admission decision of the token-bucket limiter. -/
inductive RequestOutcome where
  | granted
  | queued
  | throttled
  deriving DecidableEq

/-- Token-bucket limiter state within one refill window: remaining tokens and
the current length of the FIFO wait queue. -/
structure BucketState where
  tokens : ℕ
  queueLen : ℕ
  deriving DecidableEq

/-- Modelled from the spec: one admission decision of the token-bucket rate
limiter (part of `services/tmdb_service.py`, absent from the snapshot).
A request takes a token when one is available; otherwise it is queued FIFO up
to the bounded queue capacity `queueCap`; beyond that it fails with
`ThrottledError`.  Every request receives exactly one of the three outcomes. -/
def acquire (s : BucketState) (queueCap : ℕ) : RequestOutcome × BucketState :=
  if 0 < s.tokens then (.granted, { s with tokens := s.tokens - 1 })
  else if s.queueLen < queueCap then (.queued, { s with queueLen := s.queueLen + 1 })
  else (.throttled, s)

/-- Admit `n` requests arriving within a single refill window (no refill
happens in between), returning every request's outcome in arrival order. -/
def acquireAll (s : BucketState) (queueCap : ℕ) : ℕ → List RequestOutcome × BucketState
  | 0 => ([], s)
  | n + 1 =>
      let step := acquire s queueCap
      let rest := acquireAll step.2 queueCap n
      (step.1 :: rest.1, rest.2)

/-! ### Hybrid combiner (C6)

`services/recommender.py` is absent from the snapshot; the README states the
blend ("Combines 60% collaborative + 40% content-based recommendations,
boosts recommendations by popularity and recency") and the spec gives the
normalization, blending, boosting-cap and fallback rules. -/

/-- A scored candidate: movieId paired with a score. -/
abbrev Scored := ℕ × ℚ

/-- Largest score occurring in a candidate list (0 for the empty list). -/
def listMaxScore (l : List Scored) : ℚ :=
  l.foldr (fun p acc => max p.2 acc) 0

/-- Modelled from the spec: independent per-list normalization of a candidate
list into [0,1] by dividing by the list maximum; an empty or all-zero list is
left unchanged. -/
def normalize (l : List Scored) : List Scored :=
  if listMaxScore l = 0 then l
  else l.map (fun p => (p.1, p.2 / listMaxScore l))

/-- First score recorded for a movieId in a candidate list, if any. -/
def lookupScore (l : List Scored) (movieId : ℕ) : Option ℚ :=
  (l.find? (fun p => decide (p.1 = movieId))).map (fun p => p.2)

/-- Collaborative weight of the blend (60%). -/
def wCollab : ℚ := 6 / 10

/-- Content weight of the blend (40%). -/
def wContent : ℚ := 4 / 10

/-- Modelled from the spec: the blended score of one movie.  A movie present
in both lists gets `0.6 × collaborative + 0.4 × content`; a single-source
movie contributes at its own weight share. -/
def blendScore (collab content : List Scored) (movieId : ℕ) : ℚ :=
  match lookupScore collab movieId, lookupScore content movieId with
  | some c, some s => wCollab * c + wContent * s
  | some c, none => wCollab * c
  | none, some s => wContent * s
  | none, none => 0

/-- Modelled from the spec: blend two normalized candidate lists, one output
entry per distinct movieId. -/
def blend (collab content : List Scored) : List Scored :=
  ((collab.map Prod.fst ++ content.map Prod.fst).dedup).map
    (fun movieId => (movieId, blendScore collab content movieId))

/-- Modelled from the spec: bounded recency and popularity boosting.  Both
factors are capped multipliers (at most 1.2× and 1.15×), and the boosted
hybrid score is capped at 1. -/
def boost (recencyFactor popularityFactor : ℕ → ℚ) (l : List Scored) : List Scored :=
  l.map (fun p => (p.1, min 1 (p.2 * recencyFactor p.1 * popularityFactor p.1)))

/-- Sort candidates by score, descending. -/
def sortByScoreDesc (l : List Scored) : List Scored :=
  List.insertionSort (fun a b => b.2 ≤ a.2) l

/-- Modelled from the spec: `recommend(userId, context, topN)` of the hybrid
combiner (`services/recommender.py`, absent from the snapshot).  The two
candidate lists are independently normalized, blended 60/40, boosted with the
capped factors, sorted descending and truncated; when the collaborative list
is empty (cold start) the combiner falls back to the content-only list with
its scores untouched. -/
def recommend (collab content : List Scored)
    (recencyFactor popularityFactor : ℕ → ℚ) (topN : ℕ) : List Scored :=
  (sortByScoreDesc
    (if collab.isEmpty then content
     else boost recencyFactor popularityFactor
       (blend (normalize collab) (normalize content)))).take topN

/-! ### Content-based similarity (C7)

The content engine computes TF-IDF feature vectors and cosine similarity
(`services/recommender.py`, absent from the snapshot; the README:
"Uses TF-IDF vectorization … Calculates cosine similarity between movies"). -/

/-- A feature vector over a fixed term space of size `n`. -/
abbrev FeatureVector (n : ℕ) := Fin n → ℚ

/-- Dot product of two feature vectors. -/
def dotProduct {n : ℕ} (a b : FeatureVector n) : ℚ :=
  ∑ i, a i * b i

/-- Squared magnitude of a feature vector. -/
def magnitudeSq {n : ℕ} (a : FeatureVector n) : ℚ :=
  dotProduct a a

/-- Modelled from the spec: cosine similarity — dot product over the product
of the vector magnitudes; a zero-magnitude operand yields similarity 0 with
no error. -/
noncomputable def cosineSimilarity {n : ℕ} (a b : FeatureVector n) : ℝ :=
  if magnitudeSq a = 0 ∨ magnitudeSq b = 0 then 0
  else (dotProduct a b : ℝ) / (Real.sqrt (magnitudeSq a) * Real.sqrt (magnitudeSq b))

/-! ### Frontend api client surface (C3)

Embedded from `frontend/src/services/api.ts`: the `api` object's methods and
the backend endpoint (path under `/api/`) each one requests. -/

/-- One method of the frontend `api` object with the endpoint it targets. -/
structure ApiMethod where
  name : String
  endpoint : String
  deriving DecidableEq

/-- The thirteen methods of the `api` object in `api.ts`, with the backend
endpoint each issues its request to (`sendMessage`, `getTrendingMovies` and
`searchMovies` all go through `POST /api/chat`). -/
def apiClient : List ApiMethod :=
  [⟨"sendMessage", "chat"⟩,
   ⟨"getTrendingMovies", "chat"⟩,
   ⟨"getPopularMovies", "movies/popular"⟩,
   ⟨"getTopRatedMovies", "movies/top-rated"⟩,
   ⟨"getNowPlayingMovies", "movies/now-playing"⟩,
   ⟨"getUpcomingMovies", "movies/upcoming"⟩,
   ⟨"getMoviesByYear", "movies/by-year"⟩,
   ⟨"rateMovie", "rate"⟩,
   ⟨"getMovieDetails", "movie"⟩,
   ⟨"searchMovies", "chat"⟩,
   ⟨"getRecommendations", "recommendations"⟩,
   ⟨"getGenres", "genres"⟩,
   ⟨"getPersonalizedRecommendations", "personalized-recommendations"⟩]

/-- Modelled from the spec: the three core entry points of the upstream API
surface — `recommend` (served by the recommendations endpoint), `rateMovie`
(served by the rate endpoint) and `similarTo` (served through the chat
endpoint's similar-movie intent). -/
def coreBoundaryEndpoints : List String :=
  ["recommendations", "rate", "chat"]

/-! ### RatingModal dialog (C9)

Embedded from `RatingModal` in the frontend components: `selectedRating`
starts at 0, is set only by clicking one of the five star buttons (values
`[1, 2, 3, 4, 5]`), and `handleSubmit` invokes `onRate(selectedRating)` only
when `selectedRating > 0` (the submit button is disabled at 0). -/

/-- The star values rendered by the modal: `[1, 2, 3, 4, 5].map(...)`. -/
def starValues : List ℕ := [1, 2, 3, 4, 5]

/-- The modal's local state: `hoveredStar`, `selectedRating`, `isSubmitted`. -/
structure ModalState where
  hoveredStar : ℕ
  selectedRating : ℕ
  isSubmitted : Bool
  deriving DecidableEq

/-- Initial state: `useState(0)`, `useState(0)`, `useState(false)`. -/
def initModalState : ModalState := ⟨0, 0, false⟩

/-- The user interactions the modal reacts to. -/
inductive ModalEvent where
  | clickStar (i : Fin starValues.length)
  | hoverEnter (i : Fin starValues.length)
  | hoverLeave
  | submit
  deriving DecidableEq

/-- One step of the modal: the next state and the rating passed to `onRate`,
if this event submitted one.  `submit` is a no-op while `selectedRating = 0`. -/
def modalStep (s : ModalState) (e : ModalEvent) : ModalState × Option ℕ :=
  match e with
  | .clickStar i => ({ s with selectedRating := starValues.get i }, none)
  | .hoverEnter i => ({ s with hoveredStar := starValues.get i }, none)
  | .hoverLeave => ({ s with hoveredStar := 0 }, none)
  | .submit =>
      if s.selectedRating > 0 then
        ({ s with isSubmitted := true }, some s.selectedRating)
      else (s, none)

/-- All ratings the modal passes to `onRate` over an interaction sequence. -/
def modalRun (s : ModalState) : List ModalEvent → List ℕ
  | [] => []
  | e :: es =>
      match modalStep s e with
      | (s', some r) => r :: modalRun s' es
      | (s', none) => modalRun s' es

/-! ### Sorting movies by rating (C10)

Embedded from `handleSortByRating` (chat page): it copies the movie list and
sorts it with the comparator `(b.rating || 0) - (a.rating || 0)` for `desc`
and `(a.rating || 0) - (b.rating || 0)` for `asc`. -/

/-- A frontend movie as far as sorting is concerned: the full record is
carried along unchanged, `rating` may be absent at runtime. -/
structure Movie where
  id : ℕ
  title : String
  rating : Option ℚ
  year : ℕ
  deriving DecidableEq

/-- The sort key: `movie.rating || 0` — a missing rating counts as 0. -/
def ratingKey (m : Movie) : ℚ :=
  m.rating.getD 0

/-- The two sort orders accepted by `handleSortByRating`. -/
inductive SortOrder where
  | asc
  | desc
  deriving DecidableEq

/-- Comparator relation of the `desc` branch: later elements have keys no
larger than earlier ones. -/
def movieRatingDesc (a b : Movie) : Prop :=
  ratingKey b ≤ ratingKey a

/-- Comparator relation of the `asc` branch. -/
def movieRatingAsc (a b : Movie) : Prop :=
  ratingKey a ≤ ratingKey b

instance : DecidableRel movieRatingDesc :=
  fun a b => inferInstanceAs (Decidable (ratingKey b ≤ ratingKey a))

instance : DecidableRel movieRatingAsc :=
  fun a b => inferInstanceAs (Decidable (ratingKey a ≤ ratingKey b))

instance : IsTotal Movie movieRatingDesc :=
  ⟨fun a b => (le_total (ratingKey b) (ratingKey a)).imp id id⟩

instance : IsTotal Movie movieRatingAsc :=
  ⟨fun a b => (le_total (ratingKey a) (ratingKey b)).imp id id⟩

instance : IsTrans Movie movieRatingDesc :=
  ⟨fun _ _ _ h1 h2 => le_trans h2 h1⟩

instance : IsTrans Movie movieRatingAsc :=
  ⟨fun _ _ _ h1 h2 => le_trans h1 h2⟩

/-- Embedded from the source: `handleSortByRating` sorts a copy of the movie
list by rating with the order-dependent comparator. -/
def handleSortByRating (order : SortOrder) (movies : List Movie) : List Movie :=
  match order with
  | .desc => List.insertionSort movieRatingDesc movies
  | .asc => List.insertionSort movieRatingAsc movies

lemma ratingsWithinScale_matrixSet {M : UserItemMatrix} {u m : ℕ} {r : ℚ}
    (hM : ratingsWithinScale M = true) (h0 : 0 ≤ r) (h10 : r ≤ 10) :
    ratingsWithinScale (matrixSet M u m r) = true := by
  simp only [ratingsWithinScale, matrixSet, List.all_eq_true, decide_eq_true_eq] at *
  intro e he
  rcases List.mem_cons.mp he with h | h
  · simp only [h]; exact ⟨h0, h10⟩
  · exact hM e (List.mem_of_mem_filter h)

lemma ratingsWithinScale_ingest {M : UserItemMatrix} {e : RatingEvent}
    (hM : ratingsWithinScale M = true) :
    ratingsWithinScale (ingest M e) = true := by
  unfold ingest upsert
  by_cases h : 0 ≤ e.ratingValue ∧ e.ratingValue ≤ 5
  · simp only [if_pos h]
    exact ratingsWithinScale_matrixSet hM (by linarith [h.1]) (by linarith [h.2])
  · simp only [if_neg h]
    exact hM

lemma ratingsWithinScale_foldl (es : List RatingEvent) :
    ∀ M : UserItemMatrix, ratingsWithinScale M = true →
      ratingsWithinScale (es.foldl ingest M) = true := by
  induction es with
  | nil => intro M hM; simpa using hM
  | cons e es ih =>
      intro M hM
      simpa using ih (ingest M e) (ratingsWithinScale_ingest hM)

lemma matrixSet_filter_key (M : UserItemMatrix) (u m : ℕ) (r : ℚ) :
    (matrixSet M u m r).filter (fun e => decide (e.1 = (u, m))) = [((u, m), r)] := by
  unfold matrixSet
  rw [List.filter_cons_of_pos (by simp)]
  have hnil : (M.filter (fun e => decide (e.1 ≠ (u, m)))).filter
      (fun e => decide (e.1 = (u, m))) = [] := by
    rw [List.filter_eq_nil_iff]
    intro e he
    have h1 := List.of_mem_filter he
    simp only [decide_eq_true_eq] at h1 ⊢
    exact h1
  rw [hnil]

lemma matrixGet_matrixSet (M : UserItemMatrix) (u m : ℕ) (r : ℚ) :
    matrixGet (matrixSet M u m r) u m = some r := by
  unfold matrixGet matrixSet
  rw [List.find?_cons_of_pos _ (by simp)]
  rfl

lemma upsert_ok_elim {M M' : UserItemMatrix} {u m : ℕ} {v : ℚ}
    (h : upsert M u m v = .ok M') : M' = matrixSet M u m (2 * v) := by
  unfold upsert at h
  by_cases hv : 0 ≤ v ∧ v ≤ 5
  · rw [if_pos hv] at h
    injection h with h
    exact h.symm
  · rw [if_neg hv] at h
    cases h

lemma cacheLookup_cachePut (c : List (ℕ × MovieRecord)) (n movieId : ℕ)
    (r : MovieRecord) :
    cacheLookup ⟨cachePut c movieId r, n⟩ movieId = some r := by
  unfold cacheLookup cachePut
  rw [List.find?_cons_of_pos _ (by simp)]
  rfl

lemma fetch_hit {s : CacheState} {movieId now : ℕ} {p : ProviderResponse}
    {rec : MovieRecord} (hc : cacheLookup s movieId = some rec)
    (ht : now - rec.cachedAt < ttlDefault) :
    fetch s movieId now p = (.fromCache rec, s) := by
  simp only [fetch, hc, if_pos ht]

lemma acquireAll_length (n : ℕ) :
    ∀ (s : BucketState) (qc : ℕ), ((acquireAll s qc n).1).length = n := by
  induction n with
  | zero => intro s qc; rfl
  | succ n ih =>
      intro s qc
      simp only [acquireAll, List.length_cons, ih]

lemma acquire_cases (s : BucketState) (qc : ℕ) :
    (0 < s.tokens ∧ acquire s qc = (.granted, { s with tokens := s.tokens - 1 }))
    ∨ (s.tokens = 0 ∧ s.queueLen < qc
        ∧ acquire s qc = (.queued, { s with queueLen := s.queueLen + 1 }))
    ∨ (s.tokens = 0 ∧ ¬ s.queueLen < qc ∧ acquire s qc = (.throttled, s)) := by
  unfold acquire
  by_cases h1 : 0 < s.tokens
  · exact Or.inl ⟨h1, by rw [if_pos h1]⟩
  · have h0 : s.tokens = 0 := by omega
    by_cases h2 : s.queueLen < qc
    · exact Or.inr (Or.inl ⟨h0, h2, by rw [if_neg h1, if_pos h2]⟩)
    · exact Or.inr (Or.inr ⟨h0, h2, by rw [if_neg h1, if_neg h2]⟩)

lemma acquireAll_count_granted (n : ℕ) :
    ∀ (s : BucketState) (qc : ℕ),
      ((acquireAll s qc n).1).count .granted = min n s.tokens := by
  induction n with
  | zero => intro s qc; simp [acquireAll]
  | succ n ih =>
      intro s qc
      rcases acquire_cases s qc with ⟨h1, he⟩ | ⟨h0, _, he⟩ | ⟨h0, _, he⟩ <;>
        simp [acquireAll, he, List.count_cons, ih] <;> omega

lemma acquireAll_count_queued (n : ℕ) :
    ∀ (s : BucketState) (qc : ℕ),
      ((acquireAll s qc n).1).count .queued = min (n - s.tokens) (qc - s.queueLen) := by
  induction n with
  | zero => intro s qc; simp [acquireAll]
  | succ n ih =>
      intro s qc
      rcases acquire_cases s qc with ⟨h1, he⟩ | ⟨h0, h2, he⟩ | ⟨h0, h2, he⟩ <;>
        simp [acquireAll, he, List.count_cons, ih] <;> omega

/-- Claim C1: the `/api/rate` rating-ingestion path validates the submitted
value against the external 0–5 star scale, rejects an out-of-range value with
`ValidationError` (leaving the matrix for a rejected value untouched),
converts an in-range value to the internal 0–10 scale, and after every
ingestion sequence every stored effective rating r satisfies 0 ≤ r ≤ 10. -/
theorem rating_ingestion_validated_and_bounded :
    (∀ (M : UserItemMatrix) (u m : ℕ) (v : ℚ), ¬ (0 ≤ v ∧ v ≤ 5) →
      upsert M u m v = .validationError)
    ∧ (∀ (M : UserItemMatrix) (u m : ℕ) (v : ℚ), 0 ≤ v → v ≤ 5 →
      upsert M u m v = .ok (matrixSet M u m (2 * v)))
    ∧ (∀ es : List RatingEvent, ratingsWithinScale (ingestAll es) = true) := by
  refine ⟨?_, ?_, ?_⟩
  · intro M u m v h
    unfold upsert
    rw [if_neg h]
  · intro M u m v h0 h5
    unfold upsert
    rw [if_pos ⟨h0, h5⟩]
  · intro es
    exact ratingsWithinScale_foldl es [] rfl

/-- Witness for C1 at concrete inputs: the out-of-range star value 6 is
rejected, the in-range value 9/2 is converted to 9 on the internal scale, and
the one-event ingestion keeps every stored rating within [0, 10]. -/
theorem rating_ingestion_validated_and_bounded_witness :
    upsert [] 7 550 6 = .validationError
    ∧ upsert [] 7 550 (9/2) = .ok (matrixSet [] 7 550 (2 * (9/2)))
    ∧ ratingsWithinScale (ingestAll [⟨7, 550, 9/2⟩]) = true :=
  ⟨rating_ingestion_validated_and_bounded.1 [] 7 550 6 (by norm_num),
   rating_ingestion_validated_and_bounded.2.1 [] 7 550 (9/2) (by norm_num) (by norm_num),
   rating_ingestion_validated_and_bounded.2.2 [⟨7, 550, 9/2⟩]⟩

/-- Claim C2: executing `upsert(u, m, v1)` and then `upsert(u, m, v2)` leaves
the user–item matrix holding exactly one effective rating for the pair
(u, m), and its value is the one written last (the stored form of v2) — last
write wins. -/
theorem upsert_last_write_wins :
    ∀ (M M1 M2 : UserItemMatrix) (u m : ℕ) (v1 v2 : ℚ),
      upsert M u m v1 = .ok M1 → upsert M1 u m v2 = .ok M2 →
      M2.filter (fun e => decide (e.1 = (u, m))) = [((u, m), 2 * v2)]
      ∧ matrixGet M2 u m = some (2 * v2) := by
  intro M M1 M2 u m v1 v2 h1 h2
  have e2 : M2 = matrixSet M1 u m (2 * v2) := upsert_ok_elim h2
  subst e2
  exact ⟨matrixSet_filter_key M1 u m (2 * v2), matrixGet_matrixSet M1 u m (2 * v2)⟩

/-- Witness for C2 at concrete inputs (spec scenario C): rating movie 550 as
user 7 first with 4 stars and then 9/2 stars leaves exactly one effective
rating, the stored form of the second value. -/
theorem upsert_last_write_wins_witness :
    (matrixSet (matrixSet [] 7 550 (2 * 4)) 7 550 (2 * (9/2))).filter
        (fun e => decide (e.1 = (7, 550))) = [((7, 550), 2 * (9/2))]
    ∧ matrixGet (matrixSet (matrixSet [] 7 550 (2 * 4)) 7 550 (2 * (9/2))) 7 550
        = some (2 * (9/2)) :=
  upsert_last_write_wins [] (matrixSet [] 7 550 (2 * 4))
    (matrixSet (matrixSet [] 7 550 (2 * 4)) 7 550 (2 * (9/2))) 7 550 4 (9/2)
    (by unfold upsert; rw [if_pos (by norm_num : (0:ℚ) ≤ 4 ∧ (4:ℚ) ≤ 5)])
    (by unfold upsert; rw [if_pos (by norm_num : (0:ℚ) ≤ 9/2 ∧ (9:ℚ)/2 ≤ 5)])

/-- Claim C4: a successful fetch on a cache miss writes the record through
with a fresh `cachedAt` while counting one provider call, and every fetch of
a movie cached within the TTL window returns the cached record and leaves the
entire state — in particular the provider call counter — unchanged, whatever
the provider would have answered. -/
theorem fetch_cache_first :
    (∀ (s : CacheState) (movieId t0 : ℕ) (r : MovieRecord),
      cacheLookup s movieId = none →
      cacheLookup (fetch s movieId t0 (.success r)).2 movieId
          = some { r with cachedAt := t0 }
        ∧ (fetch s movieId t0 (.success r)).2.providerCalls = s.providerCalls + 1)
    ∧ (∀ (s : CacheState) (movieId now : ℕ) (p : ProviderResponse) (rec : MovieRecord),
      cacheLookup s movieId = some rec → now - rec.cachedAt < ttlDefault →
      fetch s movieId now p = (.fromCache rec, s)) := by
  constructor
  · intro s movieId t0 r hmiss
    refine ⟨?_, ?_⟩ <;> simp only [fetch, hmiss]
    exact cacheLookup_cachePut s.cache (s.providerCalls + 1) movieId _
  · intro s movieId now p rec hc ht
    exact fetch_hit hc ht

/-- Witness for C4 at concrete inputs: populating an empty cache at time 0
and re-fetching at time 100 (within the 24-hour TTL) serves the cached record
with the state unchanged. -/
theorem fetch_cache_first_witness :
    (cacheLookup (fetch ⟨[], 0⟩ 550 0 (.success ⟨550, "Fight Club", 8, 30, 0⟩)).2 550
        = some ⟨550, "Fight Club", 8, 30, 0⟩
      ∧ (fetch ⟨[], 0⟩ 550 0 (.success ⟨550, "Fight Club", 8, 30, 0⟩)).2.providerCalls
        = 0 + 1)
    ∧ fetch ⟨[(550, ⟨550, "Fight Club", 8, 30, 0⟩)], 1⟩ 550 100 .failure
        = (.fromCache ⟨550, "Fight Club", 8, 30, 0⟩,
           ⟨[(550, ⟨550, "Fight Club", 8, 30, 0⟩)], 1⟩) :=
  ⟨fetch_cache_first.1 ⟨[], 0⟩ 550 0 ⟨550, "Fight Club", 8, 30, 0⟩ rfl,
   fetch_cache_first.2 ⟨[(550, ⟨550, "Fight Club", 8, 30, 0⟩)], 1⟩ 550 100 .failure
     ⟨550, "Fight Club", 8, 30, 0⟩ rfl (by decide)⟩

/-- Claim C5: admitting any number of requests within a single refill window
gives every request exactly one outcome (none is silently dropped), grants
exactly `min n tokens` of them, and sends each excess request to the bounded
FIFO queue or to `ThrottledError` — every outcome is granted, queued or
throttled. -/
theorem token_bucket_no_silent_loss :
    ∀ (s : BucketState) (queueCap n : ℕ),
      ((acquireAll s queueCap n).1).length = n
      ∧ ((acquireAll s queueCap n).1).count .granted = min n s.tokens
      ∧ ((acquireAll s queueCap n).1).count .queued
          = min (n - s.tokens) (queueCap - s.queueLen)
      ∧ ∀ o ∈ (acquireAll s queueCap n).1,
          o = .granted ∨ o = .queued ∨ o = .throttled := by
  intro s queueCap n
  refine ⟨acquireAll_length n s queueCap, acquireAll_count_granted n s queueCap,
    acquireAll_count_queued n s queueCap, ?_⟩
  intro o _
  cases o
  · exact Or.inl rfl
  · exact Or.inr (Or.inl rfl)
  · exact Or.inr (Or.inr rfl)

/-- Claim C8: when the provider call fails, `fetch` returns the cached record
whenever any cached value exists for the movie — even one whose TTL has
expired — and fails with `ProviderUnavailableError` exactly when no cached
value exists. -/
theorem fetch_stale_if_error :
    ∀ (s : CacheState) (movieId now : ℕ),
      ((fetch s movieId now .failure).1 = .providerUnavailable
        ↔ cacheLookup s movieId = none)
      ∧ (∀ rec : MovieRecord, cacheLookup s movieId = some rec →
          (fetch s movieId now .failure).1 = .fromCache rec) := by
  intro s movieId now
  cases hc : cacheLookup s movieId with
  | none =>
      constructor
      · exact ⟨fun _ => rfl, fun _ => by simp only [fetch, hc]⟩
      · intro rec hrec
        exact Option.noConfusion hrec
  | some rec =>
      have hres : (fetch s movieId now .failure).1 = .fromCache rec := by
        simp only [fetch, hc]
        by_cases ht : now - rec.cachedAt < ttlDefault
        · rw [if_pos ht]
        · rw [if_neg ht]
      constructor
      · constructor
        · intro habs
          rw [hres] at habs
          cases habs
        · intro habs
          exact Option.noConfusion habs
      · intro rec2 hrec2
        injection hrec2 with h
        rw [← h]
        exact hres

/-- Witness for C8 at concrete inputs (spec scenario D): the provider fails
for movie 550 whose cached entry is long expired (cachedAt 0, now 10⁶ >
24 h), yet `fetch` still serves the expired cached record. -/
theorem fetch_stale_if_error_witness :
    (fetch ⟨[(550, ⟨550, "Fight Club", 8, 30, 0⟩)], 3⟩ 550 1000000 .failure).1
      = .fromCache ⟨550, "Fight Club", 8, 30, 0⟩ :=
  (fetch_stale_if_error ⟨[(550, ⟨550, "Fight Club", 8, 30, 0⟩)], 3⟩ 550 1000000).2
    ⟨550, "Fight Club", 8, 30, 0⟩ rfl

lemma lookupScore_mem {l : List Scored} {movieId : ℕ} {c : ℚ}
    (h : lookupScore l movieId = some c) : (movieId, c) ∈ l := by
  unfold lookupScore at h
  cases hf : l.find? (fun p => decide (p.1 = movieId)) with
  | none => rw [hf] at h; cases h
  | some q =>
      rw [hf] at h
      injection h with h
      have hm := List.mem_of_find?_eq_some hf
      have hp := List.find?_some hf
      simp only [decide_eq_true_eq] at hp
      have hq : (movieId, c) = q := by
        rw [← hp, ← h]
      rw [hq]
      exact hm

lemma lookupScore_map_fun (ids : List ℕ) (v : ℕ → ℚ) (movieId : ℕ)
    (h : movieId ∈ ids) :
    lookupScore (ids.map (fun i => (i, v i))) movieId = some (v movieId) := by
  induction ids with
  | nil => cases h
  | cons i is ih =>
      by_cases hi : i = movieId
      · subst hi
        unfold lookupScore
        rw [List.map_cons, List.find?_cons_of_pos _ (by simp)]
        rfl
      · unfold lookupScore
        rw [List.map_cons, List.find?_cons_of_neg _ (by simpa using hi)]
        have h2 : movieId ∈ is := by
          rcases List.mem_cons.mp h with h' | h'
          · exact absurd h'.symm hi
          · exact h'
        exact ih h2

lemma lookupScore_blend (l1 l2 : List Scored) (movieId : ℕ)
    (h : movieId ∈ (l1.map Prod.fst ++ l2.map Prod.fst).dedup) :
    lookupScore (blend l1 l2) movieId = some (blendScore l1 l2 movieId) :=
  lookupScore_map_fun _ _ _ h

lemma listMaxScore_nonneg (l : List Scored) : 0 ≤ listMaxScore l := by
  induction l with
  | nil => exact le_refl 0
  | cons p l ih =>
      have he : listMaxScore (p :: l) = max p.2 (listMaxScore l) := rfl
      rw [he]
      exact le_trans ih (le_max_right _ _)

lemma le_listMaxScore {l : List Scored} {p : Scored} (h : p ∈ l) :
    p.2 ≤ listMaxScore l := by
  induction l with
  | nil => cases h
  | cons q l ih =>
      have he : listMaxScore (q :: l) = max q.2 (listMaxScore l) := rfl
      rw [he]
      rcases List.mem_cons.mp h with h' | h'
      · rw [h']
        exact le_max_left _ _
      · exact le_trans (ih h') (le_max_right _ _)

lemma normalize_bounds {l : List Scored} (hnn : ∀ p ∈ l, 0 ≤ p.2) :
    ∀ p ∈ normalize l, 0 ≤ p.2 ∧ p.2 ≤ 1 := by
  intro p hp
  unfold normalize at hp
  by_cases hM : listMaxScore l = 0
  · rw [if_pos hM] at hp
    have h0 := hnn p hp
    have h1 := le_listMaxScore hp
    rw [hM] at h1
    exact ⟨h0, le_trans h1 zero_le_one⟩
  · rw [if_neg hM] at hp
    rcases List.mem_map.mp hp with ⟨q, hq, rfl⟩
    have hM0 : 0 < listMaxScore l := lt_of_le_of_ne (listMaxScore_nonneg l) (Ne.symm hM)
    constructor
    · exact div_nonneg (hnn q hq) (le_of_lt hM0)
    · exact (div_le_one hM0).mpr (le_listMaxScore hq)

lemma blendScore_bounds {l1 l2 : List Scored}
    (h1 : ∀ p ∈ l1, 0 ≤ p.2 ∧ p.2 ≤ 1) (h2 : ∀ p ∈ l2, 0 ≤ p.2 ∧ p.2 ≤ 1)
    (movieId : ℕ) :
    0 ≤ blendScore l1 l2 movieId ∧ blendScore l1 l2 movieId ≤ 1 := by
  unfold blendScore
  cases hc : lookupScore l1 movieId with
  | none =>
      cases hs : lookupScore l2 movieId with
      | none => norm_num
      | some s =>
          have hb := h2 _ (lookupScore_mem hs)
          simp only at hb
          unfold wContent
          constructor <;> nlinarith [hb.1, hb.2]
  | some c =>
      have hbc := h1 _ (lookupScore_mem hc)
      simp only at hbc
      cases hs : lookupScore l2 movieId with
      | none =>
          unfold wCollab
          constructor <;> nlinarith [hbc.1, hbc.2]
      | some s =>
          have hbs := h2 _ (lookupScore_mem hs)
          simp only at hbs
          unfold wCollab wContent
          constructor <;> nlinarith [hbc.1, hbc.2, hbs.1, hbs.2]

lemma mem_blend {l1 l2 : List Scored} {q : Scored} (h : q ∈ blend l1 l2) :
    q.2 = blendScore l1 l2 q.1 := by
  unfold blend at h
  rcases List.mem_map.mp h with ⟨movieId, _, rfl⟩
  rfl

lemma boost_bounds {f g : ℕ → ℚ} {l : List Scored}
    (hl : ∀ p ∈ l, 0 ≤ p.2) (hf : ∀ i, 1 ≤ f i) (hg : ∀ i, 1 ≤ g i) :
    ∀ p ∈ boost f g l, 0 ≤ p.2 ∧ p.2 ≤ 1 := by
  intro p hp
  unfold boost at hp
  rcases List.mem_map.mp hp with ⟨q, hq, rfl⟩
  simp only
  constructor
  · have hq0 := hl q hq
    have hf1 := hf q.1
    have hg1 := hg q.1
    have h0 : (0:ℚ) ≤ q.2 * f q.1 * g q.1 :=
      mul_nonneg (mul_nonneg hq0 (le_trans zero_le_one hf1)) (le_trans zero_le_one hg1)
    exact le_min zero_le_one h0
  · exact min_le_left _ _

lemma mem_of_mem_recommend {collab content : List Scored} {f g : ℕ → ℚ}
    {topN : ℕ} {p : Scored} (hp : p ∈ recommend collab content f g topN) :
    p ∈ (if collab.isEmpty then content
         else boost f g (blend (normalize collab) (normalize content))) := by
  unfold recommend at hp
  exact (List.perm_insertionSort _ _).mem_iff.mp (List.take_subset _ _ hp)

/-- Claim C6: a movie present in both candidate lists receives exactly
`hybridScore = 0.6 × collaborativeScore + 0.4 × contentScore` from the blend
of the per-list scores; every score returned by `recommend` lies in [0, 1]
once the inputs are in [0, 1] and the boost factors respect their caps; and
when the collaborative candidate list is empty every returned item is a
content item carried over with its content score unchanged. -/
theorem hybrid_blend_and_bounds :
    (∀ (l1 l2 : List Scored) (movieId : ℕ) (c s : ℚ),
      lookupScore l1 movieId = some c → lookupScore l2 movieId = some s →
      lookupScore (blend l1 l2) movieId = some (wCollab * c + wContent * s))
    ∧ (∀ (collab content : List Scored) (f g : ℕ → ℚ) (topN : ℕ),
      (∀ p ∈ collab, 0 ≤ p.2 ∧ p.2 ≤ 1) → (∀ p ∈ content, 0 ≤ p.2 ∧ p.2 ≤ 1) →
      (∀ i, 1 ≤ f i ∧ f i ≤ 6/5) → (∀ i, 1 ≤ g i ∧ g i ≤ 23/20) →
      ∀ p ∈ recommend collab content f g topN, 0 ≤ p.2 ∧ p.2 ≤ 1)
    ∧ (∀ (content : List Scored) (f g : ℕ → ℚ) (topN : ℕ),
      ∀ p ∈ recommend [] content f g topN, p ∈ content) := by
  refine ⟨?_, ?_, ?_⟩
  · intro l1 l2 movieId c s hc hs
    have hmem : movieId ∈ (l1.map Prod.fst ++ l2.map Prod.fst).dedup := by
      apply List.mem_dedup.mpr
      apply List.mem_append_left
      exact List.mem_map.mpr ⟨(movieId, c), lookupScore_mem hc, rfl⟩
    rw [lookupScore_blend l1 l2 movieId hmem]
    unfold blendScore
    rw [hc, hs]
  · intro collab content f g topN hcollab hcontent hf hg p hp
    have hm := mem_of_mem_recommend hp
    by_cases hempty : collab.isEmpty
    · rw [if_pos hempty] at hm
      exact hcontent p hm
    · rw [if_neg hempty] at hm
      have hnc : ∀ q ∈ normalize collab, 0 ≤ q.2 ∧ q.2 ≤ 1 :=
        normalize_bounds (fun q hq => (hcollab q hq).1)
      have hns : ∀ q ∈ normalize content, 0 ≤ q.2 ∧ q.2 ≤ 1 :=
        normalize_bounds (fun q hq => (hcontent q hq).1)
      have hbl : ∀ q ∈ blend (normalize collab) (normalize content), 0 ≤ q.2 := by
        intro q hq
        rw [mem_blend hq]
        exact (blendScore_bounds hnc hns q.1).1
      exact boost_bounds hbl (fun i => (hf i).1) (fun i => (hg i).1) p hm
  · intro content f g topN p hp
    have hm := mem_of_mem_recommend hp
    simpa using hm

/-- Witness for C6 at concrete inputs: blending two singleton lists that
share movie 1 yields exactly the weighted sum, a tiny `recommend` run stays
within [0, 1], and with an empty collaborative list the returned item is the
content item itself. -/
theorem hybrid_blend_and_bounds_witness :
    lookupScore (blend [(1, (1:ℚ))] [(1, (2:ℚ))]) 1 = some (wCollab * 1 + wContent * 2)
    ∧ (0 ≤ ((3:ℚ)/5) ∧ ((3:ℚ)/5) ≤ 1)
    ∧ (5, (1:ℚ)) ∈ ([(5, (1:ℚ))] : List Scored) := by
  refine ⟨?_, ?_, ?_⟩
  · exact hybrid_blend_and_bounds.1 [(1, (1:ℚ))] [(1, (2:ℚ))] 1 1 2 rfl rfl
  · have hmem : ((1 : ℕ), (3:ℚ)/5) ∈ recommend [(1, (1:ℚ))] [] (fun _ => 1) (fun _ => 1) 1 := by
      norm_num [recommend, sortByScoreDesc, boost, blend, blendScore, normalize,
        listMaxScore, lookupScore, wCollab, wContent, List.insertionSort, List.orderedInsert]
    have h := hybrid_blend_and_bounds.2.1 [(1, (1:ℚ))] [] (fun _ => 1) (fun _ => 1) 1
      (by rintro p hp; simp at hp; rw [hp]; norm_num)
      (by rintro p hp; simp at hp)
      (by intro i; constructor <;> norm_num)
      (by intro i; constructor <;> norm_num)
      ((1 : ℕ), (3:ℚ)/5) hmem
    simpa using h
  · have hmem : ((5 : ℕ), (1:ℚ)) ∈ recommend [] [(5, (1:ℚ))] (fun _ => 1) (fun _ => 1) 1 := by
      norm_num [recommend, sortByScoreDesc, List.insertionSort, List.orderedInsert]
    exact hybrid_blend_and_bounds.2.2 [(5, (1:ℚ))] (fun _ => 1) (fun _ => 1) 1
      ((5 : ℕ), (1:ℚ)) hmem

lemma magnitudeSq_nonneg {n : ℕ} (a : FeatureVector n) : 0 ≤ magnitudeSq a :=
  Finset.sum_nonneg fun i _ => mul_self_nonneg (a i)

lemma dotProduct_sq_le {n : ℕ} (a b : FeatureVector n) :
    (dotProduct a b) ^ 2 ≤ magnitudeSq a * magnitudeSq b := by
  have h := Finset.sum_mul_sq_le_sq_mul_sq Finset.univ a b
  unfold dotProduct magnitudeSq dotProduct
  simpa only [pow_two] using h

/-- Claim C7: cosine similarity always lies in [-1, 1]; it equals 1 on any
non-zero feature vector paired with itself; and a zero-magnitude operand
yields similarity 0 with no error. -/
theorem cosine_similarity_bounds :
    ∀ (n : ℕ) (a b : FeatureVector n),
      (-1 ≤ cosineSimilarity a b ∧ cosineSimilarity a b ≤ 1)
      ∧ (magnitudeSq a ≠ 0 → cosineSimilarity a a = 1)
      ∧ ((magnitudeSq a = 0 ∨ magnitudeSq b = 0) → cosineSimilarity a b = 0) := by
  intro n a b
  refine ⟨?_, ?_, ?_⟩
  · by_cases h : magnitudeSq a = 0 ∨ magnitudeSq b = 0
    · unfold cosineSimilarity
      rw [if_pos h]
      norm_num
    · unfold cosineSimilarity
      rw [if_neg h]
      push_neg at h
      obtain ⟨ha, hb⟩ := h
      have haR : (0:ℝ) < ((magnitudeSq a : ℚ) : ℝ) := by
        exact_mod_cast lt_of_le_of_ne (magnitudeSq_nonneg a) (Ne.symm ha)
      have hbR : (0:ℝ) < ((magnitudeSq b : ℚ) : ℝ) := by
        exact_mod_cast lt_of_le_of_ne (magnitudeSq_nonneg b) (Ne.symm hb)
      have hEpos : 0 < Real.sqrt (magnitudeSq a) * Real.sqrt (magnitudeSq b) :=
        mul_pos (Real.sqrt_pos.mpr haR) (Real.sqrt_pos.mpr hbR)
      have hE2 : (Real.sqrt (magnitudeSq a) * Real.sqrt (magnitudeSq b)) ^ 2
          = ((magnitudeSq a : ℚ) : ℝ) * ((magnitudeSq b : ℚ) : ℝ) := by
        rw [mul_pow, Real.sq_sqrt haR.le, Real.sq_sqrt hbR.le]
      have hD2 : ((dotProduct a b : ℚ) : ℝ) ^ 2
          ≤ (Real.sqrt (magnitudeSq a) * Real.sqrt (magnitudeSq b)) ^ 2 := by
        rw [hE2]
        exact_mod_cast dotProduct_sq_le a b
      have habs := abs_le_of_sq_le_sq' hD2 hEpos.le
      constructor
      · rw [le_div_iff₀ hEpos]
        linarith [habs.1]
      · exact (div_le_one hEpos).mpr habs.2
  · intro ha
    unfold cosineSimilarity
    rw [if_neg (by tauto)]
    have haR : (0:ℝ) < ((magnitudeSq a : ℚ) : ℝ) := by
      exact_mod_cast lt_of_le_of_ne (magnitudeSq_nonneg a) (Ne.symm ha)
    rw [Real.mul_self_sqrt haR.le]
    exact div_self (ne_of_gt haR)
  · intro h
    unfold cosineSimilarity
    rw [if_pos h]

/-- Witness for C7 at concrete vectors: the all-ones vector over one term has
non-zero magnitude and self-similarity exactly 1, and the zero vector yields
similarity 0 against it. -/
theorem cosine_similarity_bounds_witness :
    magnitudeSq (fun _ : Fin 1 => (1:ℚ)) ≠ 0
    ∧ cosineSimilarity (fun _ : Fin 1 => (1:ℚ)) (fun _ : Fin 1 => (1:ℚ)) = 1
    ∧ cosineSimilarity (fun _ : Fin 1 => (0:ℚ)) (fun _ : Fin 1 => (1:ℚ)) = 0 := by
  have h1 : magnitudeSq (fun _ : Fin 1 => (1:ℚ)) ≠ 0 := by
    simp [magnitudeSq, dotProduct]
  have h0 : magnitudeSq (fun _ : Fin 1 => (0:ℚ)) = 0 := by
    simp [magnitudeSq, dotProduct]
  exact ⟨h1,
    (cosine_similarity_bounds 1 (fun _ : Fin 1 => (1:ℚ)) (fun _ : Fin 1 => (1:ℚ))).2.1 h1,
    (cosine_similarity_bounds 1 (fun _ : Fin 1 => (0:ℚ)) (fun _ : Fin 1 => (1:ℚ))).2.2
      (Or.inl h0)⟩

lemma modalRun_mem_starValues :
    ∀ (es : List ModalEvent) (s : ModalState),
      (s.selectedRating = 0 ∨ s.selectedRating ∈ starValues) →
      ∀ r ∈ modalRun s es, r ∈ starValues := by
  intro es
  induction es with
  | nil =>
      intro s _ r hr
      simp only [modalRun] at hr
      cases hr
  | cons e es ih =>
      intro s hs r hr
      cases e with
      | clickStar i =>
          simp only [modalRun, modalStep] at hr
          exact ih { s with selectedRating := starValues.get i }
            (Or.inr (List.get_mem starValues i.1 i.2)) r hr
      | hoverEnter i =>
          simp only [modalRun, modalStep] at hr
          exact ih { s with hoveredStar := starValues.get i } hs r hr
      | hoverLeave =>
          simp only [modalRun, modalStep] at hr
          exact ih { s with hoveredStar := 0 } hs r hr
      | submit =>
          by_cases h0 : s.selectedRating > 0
          · simp only [modalRun, modalStep, if_pos h0] at hr
            rcases List.mem_cons.mp hr with h' | h'
            · rcases hs with hz | hmem
              · omega
              · rw [h']
                exact hmem
            · exact ih { s with isSubmitted := true } hs r h'
          · simp only [modalRun, modalStep, if_neg h0] at hr
            exact ih _ hs r hr

/-- Claim C9: over every interaction sequence, any rating the RatingModal
passes to its `onRate` callback is one of the five star values 1–5 — an
integer, never 0, negative, fractional, or above 5; in particular submitting
while no star is selected emits nothing. -/
theorem rating_modal_submits_only_one_to_five :
    ∀ (es : List ModalEvent) (r : ℕ), r ∈ modalRun initModalState es →
      r ∈ starValues ∧ 1 ≤ r ∧ r ≤ 5 ∧ r ≠ 0 := by
  intro es r hr
  have hm := modalRun_mem_starValues es initModalState (Or.inl rfl) r hr
  have hb : 1 ≤ r ∧ r ≤ 5 := by
    have hv := hm
    simp only [starValues, List.mem_cons, List.not_mem_nil, or_false] at hv
    omega
  exact ⟨hm, hb.1, hb.2, by omega⟩

/-- Witness for C9 at a concrete interaction sequence: clicking the third
star and submitting emits the rating 3, which is one of the five star
values. -/
theorem rating_modal_submits_only_one_to_five_witness :
    3 ∈ starValues ∧ 1 ≤ 3 ∧ 3 ≤ 5 ∧ 3 ≠ 0 :=
  rating_modal_submits_only_one_to_five
    [.clickStar ⟨2, by decide⟩, .submit] 3 (by decide)

/-- Claim C10: `handleSortByRating` returns a permutation of its input —
no movie added, removed or modified — whose ratings (a missing rating
counting as 0) are non-increasing for the `desc` order and non-decreasing
for the `asc` order. -/
theorem handleSortByRating_perm_and_sorted :
    ∀ movies : List Movie,
      (handleSortByRating .desc movies).Perm movies
      ∧ List.Pairwise (fun a b => ratingKey b ≤ ratingKey a)
          (handleSortByRating .desc movies)
      ∧ (handleSortByRating .asc movies).Perm movies
      ∧ List.Pairwise (fun a b => ratingKey a ≤ ratingKey b)
          (handleSortByRating .asc movies) := by
  intro movies
  exact ⟨List.perm_insertionSort movieRatingDesc movies,
    List.sorted_insertionSort movieRatingDesc movies,
    List.perm_insertionSort movieRatingAsc movies,
    List.sorted_insertionSort movieRatingAsc movies⟩

/-- Claim C3 fails on the code: the frontend api client's `getGenres` method
issues a backend request to the genres endpoint, which realizes none of the
three core entry points (recommend / rateMovie / similarTo). -/
theorem api_surface_not_three_endpoints :
    (⟨"getGenres", "genres"⟩ : ApiMethod) ∈ apiClient
    ∧ ("genres" : String) ∉ coreBoundaryEndpoints := by
  constructor
  · decide
  · decide

/-- Claim C3 as amended: the endpoints realizing the three core entry points
are all used by the frontend api client, but they are a proper subset of its
boundary — the client also requests movie details, genres and several
browsing endpoints, so not every backend request is one of the three core
operations. -/
theorem api_surface_core_proper_subset :
    coreBoundaryEndpoints ⊆ apiClient.map ApiMethod.endpoint
    ∧ ¬ (∀ m ∈ apiClient, m.endpoint ∈ coreBoundaryEndpoints) := by
  constructor
  · intro e he
    fin_cases he <;> decide
  · intro h
    have hg := h ⟨"getGenres", "genres"⟩ (by decide)
    revert hg
    decide

end MovieRec
